import Mathlib

/-!
A shallow embedding of the core of an Apple-Music-to-Spotify playlist
converter: the tab-delimited playlist parser, the plist/XML dict decoder,
the two-tier search strategy and the best-match scorer, together with
theorems checking the natural-language specification of the converter
against this embedding.

JavaScript semantics that the source relies on (truthiness, `parseInt`,
`String.replace` with a global literal pattern, object key insertion
order) are modelled explicitly; `NaN` results of numeric parsing are
modelled as `Option.none`.
-/

/-! ## JavaScript string primitives -/

/-- The JavaScript whitespace set recognized by `String.prototype.trim`
and by the regex class `\s`: ASCII whitespace, NBSP, OGHAM space,
the Unicode space separators U+2000..U+200A, line/paragraph separators,
narrow/medium spaces, ideographic space and the BOM. -/
def jsIsSpace (c : Char) : Bool :=
  c == ' ' || c == '\t' || c == '\n' || c == '\x0b' || c == '\x0c' || c == '\r' ||
  c == ' ' || c == ' ' || (0x2000 ≤ c.toNat && c.toNat ≤ 0x200A) ||
  c == ' ' || c == ' ' || c == ' ' || c == ' ' ||
  c == '　' || c == '﻿'

/-- Drop JS whitespace from both ends of a character list. -/
def jsTrimList (l : List Char) : List Char :=
  ((l.dropWhile jsIsSpace).reverse.dropWhile jsIsSpace).reverse

/-- JS `String.prototype.trim`. -/
def jsTrim (s : String) : String :=
  String.mk (jsTrimList s.toList)

/-- The digit value of a character in the given base (10 or 16), as
recognized by JS `parseInt`. -/
def jsDigit? (base : Nat) (c : Char) : Option Nat :=
  let v : Option Nat :=
    if 48 ≤ c.toNat ∧ c.toNat ≤ 57 then some (c.toNat - 48)
    else if 97 ≤ c.toNat ∧ c.toNat ≤ 102 then some (c.toNat - 87)
    else if 65 ≤ c.toNat ∧ c.toNat ≤ 70 then some (c.toNat - 55)
    else none
  v.bind (fun d => if d < base then some d else none)

/-- Accumulate the numeric value of a digit run. -/
def jsDigitsVal (base : Nat) (ds : List Char) : Nat :=
  ds.foldl (fun a c => a * base + ((jsDigit? base c).getD 0)) 0

/-- JS `parseInt(s)` with no radix argument: skip leading whitespace, read
an optional sign, auto-detect a `0x`/`0X` hex marker, then consume the
longest run of digits of the detected base. `none` models the result
`NaN` (no digit found). -/
def jsParseInt (s : String) : Option Int :=
  let cs0 := s.toList.dropWhile jsIsSpace
  let sgn : Int := match cs0 with
    | '-' :: _ => -1
    | _ => 1
  let cs1 : List Char := match cs0 with
    | '-' :: r => r
    | '+' :: r => r
    | r => r
  let base : Nat := match cs1 with
    | '0' :: 'x' :: _ => 16
    | '0' :: 'X' :: _ => 16
    | _ => 10
  let cs2 : List Char := match cs1 with
    | '0' :: 'x' :: r => r
    | '0' :: 'X' :: r => r
    | r => r
  let ds := cs2.takeWhile (fun c => (jsDigit? base c).isSome)
  if ds.isEmpty then none
  else some (sgn * (jsDigitsVal base ds : Nat))

/-- One scanning pass of JS `str.replace(/pat/g, repl)` for a literal
pattern: leftmost, non-overlapping; scanning resumes after the replaced
text. The first argument bounds the number of steps; each step consumes
at least one character of the subject, so a bound of the subject's
length (as passed by `jsReplaceAll`) makes the zero-fuel branch
unreachable. -/
def jsReplaceAllGo (pat repl : List Char) : Nat → List Char → List Char
  | _, [] => []
  | 0, s => s
  | fuel + 1, c :: rest =>
    if pat ≠ [] ∧ pat = (c :: rest).take pat.length then
      repl ++ jsReplaceAllGo pat repl fuel ((c :: rest).drop pat.length)
    else
      c :: jsReplaceAllGo pat repl fuel rest

/-- JS `str.replace(/pat/g, repl)` for a literal pattern. -/
def jsReplaceAll (pat repl s : List Char) : List Char :=
  jsReplaceAllGo pat repl s.length s

/-- String version of `jsReplaceAll`. -/
def jsReplaceAllS (pat repl s : String) : String :=
  String.mk (jsReplaceAll pat.toList repl.toList s.toList)

/-- `AppleXmlParser.cleanString` applied to an actual string: five
sequential global replaces of the entity forms `&#38; &#39; &quot;
&lt; &gt;`. (The `typeof` guard of the source is the `PValue.str` case
split of `cleanStringV` below.) -/
def cleanString (s : String) : String :=
  jsReplaceAllS "&gt;" ">"
    (jsReplaceAllS "&lt;" "<"
      (jsReplaceAllS "&quot;" "\x22"
        (jsReplaceAllS "&#39;" "\x27"
          (jsReplaceAllS "&#38;" "&" s))))

/-- The JS regex class `\w`: ASCII digits, ASCII letters and underscore. -/
def jsIsWordChar (c : Char) : Bool :=
  (c.val ≥ 48 && c.val ≤ 57) || (c.val ≥ 65 && c.val ≤ 90) ||
  (c.val ≥ 97 && c.val ≤ 122) || c == '_'

/-- `normalizeString` of `SpotifyClient.findBestMatch`:
`str.toLowerCase().replace(/[^\w\s]/g, '').trim()`. Lowercasing is
modelled by `Char.toLower`, the simple ASCII case map. -/
def normalizeString (s : String) : String :=
  String.mk (jsTrimList ((s.toList.map Char.toLower).filter
    (fun c => jsIsWordChar c || jsIsSpace c)))

/-- JS `str.split(sep)` for a single-character separator, on character
lists: `""` splits to `[""]`, separators at the ends produce empty
groups. -/
def jsSplitList (sep : Char) : List Char → List (List Char)
  | [] => [[]]
  | c :: rest =>
    match jsSplitList sep rest with
    | [] => [[]]
    | g :: gs => if c == sep then [] :: g :: gs else (c :: g) :: gs

/-- JS `str.split(sep)` for a single-character separator. -/
def jsSplit (sep : Char) (s : String) : List String :=
  (jsSplitList sep s.toList).map String.mk

/-! ## Tab-delimited playlist parser (`ApplePlaylistParser`) -/

/-- JS object insertion `o[k] = v` on a record modelled as an entry list
in insertion order: an existing key keeps its original position and gets
the new value, a new key is appended. -/
def jsInsert {α : Type} (o : List (String × α)) (k : String) (v : α) : List (String × α) :=
  if o.any (fun p => p.1 == k) then
    o.map (fun p => if p.1 = k then (k, v) else p)
  else
    o ++ [(k, v)]

/-- JS property read `o[k]` on a record modelled as an entry list. -/
def jsLookup {α : Type} (o : List (String × α)) (k : String) : Option α :=
  (o.find? (fun p => p.1 == k)).map (fun p => p.2)

/-- `values[index] || ''`: a missing entry (and an empty one) yields the
empty string. -/
def jsGetOrEmpty (values : List String) (i : Nat) : String :=
  match values[i]? with
  | some v => v
  | none => ""

/-- The body of `headers.forEach((header, index) => track[header] =
values[index] || '')`. -/
def rowRecord (headers values : List String) : List (String × String) :=
  headers.enum.foldl (fun o hi => jsInsert o hi.2 (jsGetOrEmpty values hi.1)) []

/-- `ApplePlaylistParser.parseFile` after the line split: filter out
whitespace-only lines, fail on an empty remainder, split the first line
into headers and zip every further line against them. -/
def parseLines (lines0 : List String) : Except String (List (List (String × String))) :=
  let lines := lines0.filter (fun l => jsTrim l != "")
  match lines with
  | [] => .error "File is empty"
  | header :: rest =>
    let headers := jsSplit '\t' header
    .ok (rest.map (fun line => rowRecord headers (jsSplit '\t' line)))

/-- `ApplePlaylistParser.parseFile`: split the file content on newlines
and decode. -/
def parseFileTab (content : String) : Except String (List (List (String × String))) :=
  parseLines (jsSplit '\n' content)

/-- `ApplePlaylistParser.parseTime`: `""` (falsy) yields 0; a 2-part colon
split is minutes:seconds; a 3-part split is hours:minutes:seconds; any
other shape is `parseInt(timeString) || 0`. `none` models `NaN`
(propagated by the arithmetic on the parts). -/
def parseTime (timeString : String) : Option Int :=
  if timeString = "" then some 0
  else
    match jsSplit ':' timeString with
    | [a, b] =>
      match jsParseInt a, jsParseInt b with
      | some m, some s => some (m * 60 + s)
      | _, _ => none
    | [a, b, c] =>
      match jsParseInt a, jsParseInt b, jsParseInt c with
      | some h, some m, some s => some (h * 3600 + m * 60 + s)
      | _, _, _ => none
    | _ => some ((jsParseInt timeString).getD 0)


/-! ## Match scorer (`SpotifyClient.findBestMatch`) -/

/-- A canonical track as fed to the scorer: the normalized cross-format
record. `duration` is in whole seconds (`Math.round` output for plist
input, `parseTime` output for tab input); `none` models a `NaN`
duration, which is falsy exactly like the missing-field default `0`. -/
structure CTrack where
  name : String
  artist : String
  album : String
  duration : Option Int

/-- A remote search candidate: track name, the names of its listed
artists (JS `track.artists`, possibly empty), its album's name and its
duration in milliseconds. -/
structure Candidate where
  name : String
  artists : List String
  albumName : String
  duration_ms : Option Int
deriving DecidableEq

/-- JS truthiness of a numeric field: `0`, `NaN` and `undefined` are
falsy. -/
def truthyNum : Option Int → Bool
  | some n => n != 0
  | none => false

/-- Does `needle` occur as a contiguous run of `hay`? (The empty needle
occurs everywhere, as in JS.) -/
def jsIncludesL (needle : List Char) : List Char → Bool
  | [] => needle.isEmpty
  | c :: rest => ((c :: rest).take needle.length == needle) || jsIncludesL needle rest

/-- JS `a.includes(b)`: substring containment. -/
def jsIncludes (a b : String) : Bool :=
  jsIncludesL b.toList a.toList

/-- The duration contribution of the score:
`if (originalTrack.duration && track.duration_ms) { ... }` with
`Math.abs(duration - duration_ms / 1000) <= 2` (resp. `<= 5`) stated
exactly, scaled by 1000 into the integers. -/
def durationScore (d ms : Option Int) : Int :=
  if truthyNum d ∧ truthyNum ms then
    match d, ms with
    | some dv, some msv =>
      if (1000 * dv - msv).natAbs ≤ 2000 then 2
      else if (1000 * dv - msv).natAbs ≤ 5000 then 1
      else 0
    | _, _ => 0
  else 0

/-- The per-candidate score of `findBestMatch`. `none` models the
`TypeError` thrown by `track.artists[0].name` when the candidate's
artist list is empty. -/
def computeScore (originalTrack : CTrack) (track : Candidate) : Option Int :=
  match track.artists.head? with
  | none => none
  | some firstArtist =>
    let originalTrackNorm := normalizeString originalTrack.name
    let originalArtistNorm := normalizeString originalTrack.artist
    let trackNameNorm := normalizeString track.name
    let artistNameNorm := normalizeString firstArtist
    let s1 : Int :=
      if trackNameNorm = originalTrackNorm then 10
      else if jsIncludes trackNameNorm originalTrackNorm ||
              jsIncludes originalTrackNorm trackNameNorm then 5
      else 0
    let s2 : Int :=
      if artistNameNorm = originalArtistNorm then 10
      else if jsIncludes artistNameNorm originalArtistNorm ||
              jsIncludes originalArtistNorm artistNameNorm then 5
      else 0
    let s3 : Int :=
      if originalTrack.album ≠ "" then
        let originalAlbumNorm := normalizeString originalTrack.album
        let albumNameNorm := normalizeString track.albumName
        if albumNameNorm = originalAlbumNorm then 3
        else if jsIncludes albumNameNorm originalAlbumNorm ||
                jsIncludes originalAlbumNorm albumNameNorm then 1
        else 0
      else 0
    let s4 : Int := durationScore originalTrack.duration track.duration_ms
    some (s1 + s2 + s3 + s4)

/-- The scan of `findBestMatch`: walk the candidates in order carrying
`(bestMatch, bestScore)`, replacing the carried best only on a strictly
greater score. An undefined score (empty artist list) aborts the scan,
modelling the thrown `TypeError`. -/
def scanBest (originalTrack : CTrack) :
    List Candidate → Candidate × Int → Except Unit (Candidate × Int)
  | [], st => .ok st
  | c :: cs, (bestMatch, bestScore) =>
    match computeScore originalTrack c with
    | none => .error ()
    | some score =>
      scanBest originalTrack cs
        (if score > bestScore then (c, score) else (bestMatch, bestScore))

/-- `SpotifyClient.findBestMatch`: `null` on no candidates, the sole
candidate unconditionally on exactly one, otherwise the scan starting
from the first candidate with best score 0. -/
def findBestMatch (searchResults : List Candidate) (originalTrack : CTrack) :
    Except Unit (Option Candidate) :=
  match searchResults with
  | [] => .ok none
  | [t] => .ok (some t)
  | t0 :: t1 :: rest =>
    (scanBest originalTrack (t0 :: t1 :: rest) (t0, 0)).map (fun st => some st.1)

/-! ## Search strategy (`SpotifyClient.searchTrack`) -/

/-- The field-qualified primary query: `track:"…" artist:"…"` with an
`album:"…"` term appended when the album name is truthy (nonempty). -/
def primaryQuery (trackName artistName albumName : String) : String :=
  let query := "track:\x22" ++ trackName ++ "\x22 artist:\x22" ++ artistName ++ "\x22"
  if albumName ≠ "" then query ++ " album:\x22" ++ albumName ++ "\x22" else query

/-- The free-text fallback query: `"…" "…"` (no album term). -/
def secondaryQuery (trackName artistName : String) : String :=
  "\x22" ++ trackName ++ "\x22 \x22" ++ artistName ++ "\x22"

/-- `SpotifyClient.searchTrack` with the remote catalog modelled as a
total function from query text to candidate list (the source's
try/catch, which degrades a *thrown* search to an empty result without
attempting the fallback, is outside this model). Returns the resulting
candidates together with the trace of issued queries in order. -/
def searchTrack (remoteSearch : String → List Candidate)
    (trackName artistName albumName : String) : List Candidate × List String :=
  let query := primaryQuery trackName artistName albumName
  let tracks := remoteSearch query
  if tracks.length = 0 then
    let fallback := secondaryQuery trackName artistName
    (remoteSearch fallback, [query, fallback])
  else
    (tracks, [query])

deriving instance DecidableEq for Except


/-! ## Plist/XML dict decoder (`AppleXmlParser`) -/

mutual
/-- The post-`xml2js` shape of one plist `<dict>` node: an ordered key
list and six type-segregated value buckets. Booleans appear only as
counts of `<true/>` / `<false/>` markers, exactly as `parseDict`
consumes them. The source's `Array.isArray(x) ? x : [x]` normalizations
are pre-applied by this representation. -/
inductive DictData : Type where
  | mk (keys strings integers dates : List String) (trues falses : Nat)
       (arrays : ArrBucket)
/-- The ordered bucket of nested `<array>` nodes of a dict. -/
inductive ArrBucket : Type where
  | nil
  | cons (children : DictChildren) (rest : ArrBucket)
/-- The `<dict>` children of one `<array>` node (`.nil` when the node has
no dict child, i.e. `arrayData.dict` is absent/falsy). -/
inductive DictChildren : Type where
  | nil
  | cons (d : DictData) (rest : DictChildren)
end

/-- A decoded JS value as produced by `parseDict`. `int none` models the
`NaN` of a failed `parseInt`; `date` keeps the raw text of the date node;
`arr` is a nested array node stored as-is (represented by its dict
children); `items` is the output of `parsePlaylistItems`, a JS array of
one-key `{'Track ID': …}` objects. -/
inductive PValue : Type where
  | str (s : String)
  | int (n : Option Int)
  | date (raw : String)
  | bool (b : Bool)
  | arr (children : DictChildren)
  | items (objs : List (List (String × PValue)))

/-- A decoded JS object: entries in insertion order. -/
abbrev JsObj := List (String × PValue)

def DictData.keys : DictData → List String
  | .mk ks _ _ _ _ _ _ => ks

def DictData.strings : DictData → List String
  | .mk _ ss _ _ _ _ _ => ss

def DictData.integers : DictData → List String
  | .mk _ _ is _ _ _ _ => is

def DictData.dates : DictData → List String
  | .mk _ _ _ ds _ _ _ => ds

def DictData.trues : DictData → Nat
  | .mk _ _ _ _ ts _ _ => ts

def DictData.falses : DictData → Nat
  | .mk _ _ _ _ _ fs _ => fs

def DictData.arrays : DictData → ArrBucket
  | .mk _ _ _ _ _ _ as_ => as_

/-- Is the child list of an array node empty (its `.dict` absent)? -/
def DictChildren.isNil : DictChildren → Bool
  | .nil => true
  | .cons _ _ => false

/-- The length of an array-node bucket. -/
def ArrBucket.length : ArrBucket → Nat
  | .nil => 0
  | .cons _ rest => 1 + rest.length

/-- JS truthiness of a decoded value (`NaN`, `0`, `''` and `false` are
falsy; every object, including an empty array, is truthy). -/
def jsTruthy : PValue → Bool
  | .str s => s != ""
  | .int (some n) => n != 0
  | .int none => false
  | .date _ => true
  | .bool b => b
  | .arr _ => true
  | .items _ => true

/-- JS truthiness of a property read that may be `undefined`. -/
def jsTruthyOpt : Option PValue → Bool
  | some v => jsTruthy v
  | none => false

/-- JS SameValueZero (the equality used by `Array.prototype.includes`)
restricted to decoded values: structural on primitives (`NaN` equals
`NaN`), reference equality — hence `false` between independently decoded
objects — on dates, arrays and item lists. -/
def jsSameValueZero : PValue → PValue → Bool
  | .str a, .str b => a == b
  | .int a, .int b => a == b
  | .bool a, .bool b => a == b
  | _, _ => false

/-- `AppleXmlParser.parsePlaylistItems`, given the already-decoded child
objects of the array node: keep each child whose `Track ID` property is
truthy, reduced to a one-key `{'Track ID': …}` object. -/
def parsePlaylistItems (decodedItems : List JsObj) : List JsObj :=
  decodedItems.filterMap (fun item =>
    match jsLookup item "Track ID" with
    | some v => if jsTruthy v then some [("Track ID", v)] else none
    | none => none)

/-- The value drawn from the nested-array bucket for key `k`:
`parsePlaylistItems` for a `Playlist Items` node with a truthy `.dict`,
otherwise the raw node stored as-is. -/
def arrValue (k : String) (children : DictChildren) (kids : List JsObj) : PValue :=
  if k = "Playlist Items" ∧ children.isNil = false then .items (parsePlaylistItems kids)
  else .arr children

/-- The key/value loop of `AppleXmlParser.parseDict`. The source's six
bucket cursors are passed as the unconsumed suffix of each bucket
(`stringIndex < strings.length` becomes "the string suffix is nonempty",
and advancing a cursor drops the suffix's head); each array node is
paired with the already-decoded objects of its dict children. A key
reached with every bucket exhausted gets `value = null` and is not
inserted. -/
def parseDictLoop : List String → List String → List String → List String → Nat → Nat →
    List (DictChildren × List JsObj) → JsObj → JsObj
  | [], _, _, _, _, _, _, acc => acc
  | k :: ks, s :: srest, ints, dats, ts, fs, arrs, acc =>
    parseDictLoop ks srest ints dats ts fs arrs (jsInsert acc k (.str (cleanString s)))
  | k :: ks, [], i :: irest, dats, ts, fs, arrs, acc =>
    parseDictLoop ks [] irest dats ts fs arrs (jsInsert acc k (.int (jsParseInt i)))
  | k :: ks, [], [], d :: drest, ts, fs, arrs, acc =>
    parseDictLoop ks [] [] drest ts fs arrs (jsInsert acc k (.date d))
  | k :: ks, [], [], [], ts + 1, fs, arrs, acc =>
    parseDictLoop ks [] [] [] ts fs arrs (jsInsert acc k (.bool true))
  | k :: ks, [], [], [], 0, fs + 1, arrs, acc =>
    parseDictLoop ks [] [] [] 0 fs arrs (jsInsert acc k (.bool false))
  | k :: ks, [], [], [], 0, 0, a :: arest, acc =>
    parseDictLoop ks [] [] [] 0 0 arest (jsInsert acc k (arrValue k a.1 a.2))
  | _ :: ks, [], [], [], 0, 0, [], acc =>
    parseDictLoop ks [] [] [] 0 0 [] acc

mutual
/-- `AppleXmlParser.parseDict`: decode one dict node. (The source's
`!dictData || !dictData.key` guard returns `{}`; here a missing key list
is the empty `keys`, on which the loop returns `{}` as well.) -/
def parseDict : DictData → JsObj
  | .mk ks ss is ds ts fs arrs =>
    parseDictLoop ks ss is ds ts fs (decodeArrays arrs) []
/-- Pair each array node of the bucket with the decoded objects of its
dict children. -/
def decodeArrays : ArrBucket → List (DictChildren × List JsObj)
  | .nil => []
  | .cons children rest => (children, decodeChildren children) :: decodeArrays rest
/-- Decode every dict child of one array node, in order. -/
def decodeChildren : DictChildren → List JsObj
  | .nil => []
  | .cons d rest => parseDict d :: decodeChildren rest
end


/-! ## Library extraction and canonicalization (`AppleXmlParser`) -/

/-- `track && track.Name && (track.Artist || track['Album Artist'])`:
the retention test of `extractTracks` (a decoded dict is always truthy). -/
def trackKeepable (track : JsObj) : Bool :=
  jsTruthyOpt (jsLookup track "Name") &&
    (jsTruthyOpt (jsLookup track "Artist") ||
      jsTruthyOpt (jsLookup track "Album Artist"))

/-- The per-entry loop of `AppleXmlParser.extractTracks`: pair the id keys
of the `Tracks` dict with its dict values up to the shorter length,
decode each value, keep it when it has a name and an artist (or album
artist), and stamp it with `parseInt` of its id key. -/
def extractTracksFrom (trackIds : List String) (trackDicts : List DictData) : List JsObj :=
  (trackIds.zip trackDicts).filterMap (fun p =>
    let track := parseDict p.2
    if trackKeepable track then
      some (jsInsert track "Track ID" (.int (jsParseInt p.1)))
    else none)

/-- `x || dflt` on a property read: the read value when truthy, else the
default. -/
def jsOrV (x : Option PValue) (dflt : PValue) : PValue :=
  match x with
  | some v => if jsTruthy v then v else dflt
  | none => dflt

/-- `AppleXmlParser.cleanString` including its `typeof` guard: non-string
values pass through unchanged. -/
def cleanStringV : PValue → PValue
  | .str s => .str (cleanString s)
  | v => v

/-- JS `String(…)`/`.toString()` of a decoded value, used only for the
`Year` field. `Date`, array and item-list values stringify through
object/locale rules a library export never exercises for `Year`; they
are kept as the raw date text resp. the empty string. -/
def pvToString : PValue → String
  | .str s => s
  | .int (some n) => toString n
  | .int none => "NaN"
  | .bool true => "true"
  | .bool false => "false"
  | .date raw => raw
  | .arr _ => ""
  | .items _ => ""

/-- `track['Total Time'] ? Math.round(track['Total Time'] / 1000) : 0`.
For the integer millisecond counts a library export stores,
`Math.round(n / 1000)` is computed exactly as `⌊(2n + 1000) / 2000⌋`;
a truthy non-integer value (which would coerce through JS `Number`
semantics) is modelled as `NaN`. -/
def durationOf (tt : Option PValue) : Option Int :=
  if jsTruthyOpt tt then
    match tt with
    | some (.int (some n)) => some ((2 * n + 1000).fdiv 2000)
    | _ => none
  else some 0

/-- The canonical track produced by `getTracksForSpotify`'s `map`. -/
structure XTrack where
  name : PValue
  artist : PValue
  album : PValue
  year : String
  duration : Option Int
  originalTrack : JsObj

/-- The canonicalizing `map` body of `getTracksForSpotify`. -/
def canonOf (track : JsObj) : XTrack where
  name := cleanStringV (jsOrV (jsLookup track "Name") (.str ""))
  artist := cleanStringV (jsOrV (jsLookup track "Artist")
    (jsOrV (jsLookup track "Album Artist") (.str "")))
  album := cleanStringV (jsOrV (jsLookup track "Album") (.str ""))
  year := match jsLookup track "Year" with
    | some v => if jsTruthy v then pvToString v else ""
    | none => ""
  duration := durationOf (jsLookup track "Total Time")
  originalTrack := track

/-- The final `filter(track => track.name && track.artist)`. -/
def validCanon (t : XTrack) : Bool :=
  jsTruthy t.name && jsTruthy t.artist

/-- `playlist['Playlist Items'].map(item => item['Track ID']).filter(id => id)`:
the id of each item object, undefined and falsy ids dropped. -/
def cleanIds (itemObjs : List JsObj) : List PValue :=
  (itemObjs.map (fun item => jsLookup item "Track ID")).filterMap (fun o =>
    match o with
    | some v => if jsTruthy v then some v else none
    | none => none)

/-- `trackIds.includes(track['Track ID'])`: an undefined id is in the
filtered id list only if the list contains `undefined`, which
`filter(id => id)` has removed, hence `false`. -/
def idMatches (ids : List PValue) (tid : Option PValue) : Bool :=
  match tid with
  | some v => ids.any (fun w => jsSameValueZero w v)
  | none => false

/-- `p.Name === playlistName`: strict equality between a property read
and a string. -/
def hasName (p : JsObj) (playlistName : String) : Bool :=
  match jsLookup p "Name" with
  | some (.str s) => s == playlistName
  | _ => false

/-- `(tracks.map canonOf).filter validCanon`: the shared tail of both
branches of `getTracksForSpotify`. -/
def canonList (ts : List JsObj) : List XTrack :=
  (ts.map canonOf).filter validCanon

/-- `AppleXmlParser.getTracksForSpotify` over the parser state
`(tracks, playlists)`. `none` and the falsy `""` select the whole
library; otherwise the first playlist whose `Name` strictly equals the
requested name is looked up, a missing or falsy `Playlist Items`
property raises the not-found error, a truthy non-array one raises the
`TypeError` of calling `.map` on it, and otherwise the library tracks
whose stamped id occurs among the playlist's item ids are converted, in
library order. -/
def getTracksForSpotifyX (tracks playlists : List JsObj) (playlistName : Option String) :
    Except String (List XTrack) :=
  match playlistName with
  | none => .ok (canonList tracks)
  | some pname =>
    if pname = "" then .ok (canonList tracks)
    else
      match playlists.find? (fun p => hasName p pname) with
      | none => .error ("Playlist \x22" ++ pname ++ "\x22 not found or has no tracks")
      | some playlist =>
        match jsLookup playlist "Playlist Items" with
        | none => .error ("Playlist \x22" ++ pname ++ "\x22 not found or has no tracks")
        | some v =>
          if jsTruthy v = false then
            .error ("Playlist \x22" ++ pname ++ "\x22 not found or has no tracks")
          else
            match v with
            | .items itemObjs =>
              .ok (canonList (tracks.filter (fun track =>
                idMatches (cleanIds itemObjs) (jsLookup track "Track ID"))))
            | _ => .error "TypeError: playlist items has no map"

/-- The record produced by the named branch of `getPlaylistInfo`. -/
structure PlaylistInfo where
  name : PValue
  totalTracks : Nat
  validTracks : Nat

/-- The named branch of `AppleXmlParser.getPlaylistInfo` (the null/empty
name branch summarizes the whole library without any lookup and is not
part of the lookup contract): find the playlist, raise not-found when
absent, then resolve its tracks — propagating any error of
`getTracksForSpotify` — and report the counts. -/
def getPlaylistInfoX (tracks playlists : List JsObj) (pname : String) :
    Except String PlaylistInfo :=
  match playlists.find? (fun p => hasName p pname) with
  | none => .error ("Playlist \x22" ++ pname ++ "\x22 not found")
  | some playlist =>
    (getTracksForSpotifyX tracks playlists (some pname)).map (fun playlistTracks =>
      { name := (jsLookup playlist "Name").getD (.str "")
        totalTracks := match jsLookup playlist "Playlist Items" with
          | some (.items l) => l.length
          | _ => 0
        validTracks := playlistTracks.length })


/-! ## Auxiliary definitions used by the specification theorems -/

deriving instance DecidableEq for DictData, ArrBucket, DictChildren

/-- Did the call succeed? -/
def isOkE {α : Type} (e : Except String α) : Bool :=
  match e with
  | .ok _ => true
  | .error _ => false

/-- The score `findBestMatch` computes for a candidate, with the
(unreachable under a defined score) default 0. -/
def scOf (ot : CTrack) (c : Candidate) : Int :=
  (computeScore ot c).getD 0

/-- One step of the best-so-far scan as a pure fold step (the `Except`
layer of `scanBest` stripped; they agree whenever every score is
defined, see `scanBest_ok`). -/
def scanStep (ot : CTrack) (st : Candidate × Int) (c : Candidate) : Candidate × Int :=
  if scOf ot c > st.2 then (c, scOf ot c) else st

/-- The specification's reference normalization, exactly as worded:
lowercase, remove every character that is neither alphanumeric nor
whitespace, then trim. -/
def normalizeSpecRef (s : String) : String :=
  String.mk (jsTrimList ((s.toList.map Char.toLower).filter
    (fun c => c.isAlphanum || jsIsSpace c)))

/-- The amended reference normalization: the kept alphabet also contains
the underscore (the source's `\w` class), everything else as the
specification words it. -/
def normalizeSpecAmended (s : String) : String :=
  String.mk (jsTrimList ((s.toList.map Char.toLower).filter
    (fun c => (c.isAlphanum || c == '_') || jsIsSpace c)))

/-- The specification's fixed-precedence value stream for one dict node:
all string values first (entity-unescaped), then the integers
(`parseInt`), the dates, the `true` markers, the `false` markers, and
the array nodes; position `i` of this stream is the value assigned to
the `i`-th declared key (the value of an array node may depend on the
key it lands on). -/
def bucketStream (ss ints dats : List String) (ts fs : Nat)
    (arrs : List (DictChildren × List JsObj)) : List (String → PValue) :=
  ss.map (fun s _ => PValue.str (cleanString s)) ++
  ints.map (fun i _ => PValue.int (jsParseInt i)) ++
  dats.map (fun d _ => PValue.date d) ++
  List.replicate ts (fun _ => PValue.bool true) ++
  List.replicate fs (fun _ => PValue.bool false) ++
  arrs.map (fun a k => arrValue k a.1 a.2)

/-! ## Claim theorems -/

/-- **C7**: `parseTime` maps a two-part colon string to
`minutes * 60 + seconds`, a three-part colon string to
`hours * 3600 + minutes * 60 + seconds`, and any other string to its
integer parse with fallback 0 on failure; in particular `"3:45" → 225`,
`"1:02:03" → 3723`, `"90" → 90` and `"" → 0`. -/
theorem C7_parseTime_spec :
    (∀ s a b m k, jsSplit ':' s = [a, b] →
      jsParseInt a = some m → jsParseInt b = some k →
      parseTime s = some (m * 60 + k)) ∧
    (∀ s a b c h m k, jsSplit ':' s = [a, b, c] →
      jsParseInt a = some h → jsParseInt b = some m → jsParseInt c = some k →
      parseTime s = some (h * 3600 + m * 60 + k)) ∧
    (∀ s, (jsSplit ':' s).length ≠ 2 → (jsSplit ':' s).length ≠ 3 →
      parseTime s = some ((jsParseInt s).getD 0)) ∧
    parseTime "3:45" = some 225 ∧ parseTime "1:02:03" = some 3723 ∧
    parseTime "90" = some 90 ∧ parseTime "" = some 0 := by
  refine ⟨?_, ?_, ?_, by decide, by decide, by decide, by decide⟩
  · intro s a b m k hsplit ha hb
    have hs : s ≠ "" := by
      intro h
      subst h
      have : ([""] : List String) = [a, b] := hsplit
      simp at this
    simp [parseTime, hs, hsplit, ha, hb]
  · intro s a b c h m k hsplit ha hb hc
    have hs : s ≠ "" := by
      intro hh
      subst hh
      have : ([""] : List String) = [a, b, c] := hsplit
      simp at this
    simp [parseTime, hs, hsplit, ha, hb, hc]
  · intro s h2 h3
    by_cases hs : s = ""
    · subst hs
      decide
    · rcases hsl : jsSplit ':' s with _ | ⟨a, _ | ⟨b, _ | ⟨c, _ | ⟨d, rest⟩⟩⟩⟩
      · simp [parseTime, hs, hsl]
      · simp [parseTime, hs, hsl]
      · exact absurd (by rw [hsl]; rfl) h2
      · exact absurd (by rw [hsl]; rfl) h3
      · simp [parseTime, hs, hsl]

/-- Witness for C7: the two-part case at `"7:05"`. -/
theorem C7_parseTime_spec_witness :
    jsSplit ':' "7:05" = ["7", "05"] ∧ jsParseInt "7" = some 7 ∧
      jsParseInt "05" = some 5 ∧ parseTime "7:05" = some 425 :=
  ⟨by decide, by decide, by decide,
    C7_parseTime_spec.1 "7:05" "7" "05" 7 5 (by decide) (by decide) (by decide)⟩

/-- **C8**: the primary field-qualified query is issued first; the
secondary free-text query is issued exactly when the primary returned
zero candidates, and then its results entirely replace the empty
primary result; a nonempty primary result is returned as-is and the
secondary query is never issued. -/
theorem C8_two_tier_search (remoteSearch : String → List Candidate)
    (tn an al : String) :
    ((searchTrack remoteSearch tn an al).2.head? = some (primaryQuery tn an al)) ∧
    (remoteSearch (primaryQuery tn an al) = [] →
      searchTrack remoteSearch tn an al =
        (remoteSearch (secondaryQuery tn an),
          [primaryQuery tn an al, secondaryQuery tn an])) ∧
    (remoteSearch (primaryQuery tn an al) ≠ [] →
      searchTrack remoteSearch tn an al =
        (remoteSearch (primaryQuery tn an al), [primaryQuery tn an al])) := by
  refine ⟨?_, ?_, ?_⟩
  · by_cases h : remoteSearch (primaryQuery tn an al) = []
    · simp [searchTrack, h]
    · simp [searchTrack, h, List.length_eq_zero]
  · intro h
    simp [searchTrack, h]
  · intro h
    simp [searchTrack, h, List.length_eq_zero]

/-- Witness for C8: a remote collaborator whose primary result is
nonempty; no secondary query is issued. -/
theorem C8_two_tier_search_witness :
    ((fun q => if q = primaryQuery "a" "b" "" then
        [(⟨"a", ["b"], "", some 0⟩ : Candidate)] else [])
      (primaryQuery "a" "b" "") ≠ []) ∧
    searchTrack
      (fun q => if q = primaryQuery "a" "b" "" then
        [(⟨"a", ["b"], "", some 0⟩ : Candidate)] else [])
      "a" "b" "" =
      ([⟨"a", ["b"], "", some 0⟩], [primaryQuery "a" "b" ""]) :=
  ⟨by decide,
    (C8_two_tier_search _ "a" "b" "").2.2 (by decide)⟩

/-- The `\w` class is exactly "alphanumeric or underscore". -/
theorem jsIsWordChar_eq (c : Char) : jsIsWordChar c = (c.isAlphanum || c == '_') := by
  unfold jsIsWordChar Char.isAlphanum Char.isAlpha Char.isDigit Char.isUpper Char.isLower
  generalize (c.val ≥ 48 && c.val ≤ 57) = d
  generalize (c.val ≥ 65 && c.val ≤ 90) = u
  generalize (c.val ≥ 97 && c.val ≤ 122) = l
  generalize (c == '_') = w
  cases d <;> cases u <;> cases l <;> cases w <;> rfl

/-- **C5 counterexample**: on the underscore the source's normalization
(which keeps the `\w` class) and the specification's reference
normalization (which keeps only alphanumerics and whitespace) disagree:
the code keeps `"_"`, the reference removes it. -/
theorem C5_normalize_counterexample :
    normalizeString "_" = "_" ∧ normalizeSpecRef "_" = "" ∧
      normalizeString "_" ≠ normalizeSpecRef "_" :=
  ⟨by decide, by decide, by decide⟩

/-- **C5 amended**: the source's normalization equals the reference
definition "lowercase, remove every character that is neither
alphanumeric, underscore, nor whitespace, then trim" on every string. -/
theorem C5_normalize_amended (s : String) :
    normalizeString s = normalizeSpecAmended s := by
  unfold normalizeString normalizeSpecAmended
  congr 2
  apply List.filter_congr
  intro c _
  rw [jsIsWordChar_eq]

/-- **C10 counterexample**: the claim's example is wrong about a single
unescape pass: the five replaces of `cleanString` run sequentially on
the same string, so one application of `cleanString` to `"&#38;quot;"`
already produces `"` (the first replace yields `"&quot;"`, which the
third replace then rewrites), not `"&quot;"`. -/
theorem C10_counterexample :
    cleanString "&#38;quot;" = "\x22" ∧ cleanString "&#38;quot;" ≠ "&quot;" :=
  ⟨by decide, by decide⟩

/-- **C10 amended**: the entity-unescape step is applied twice to name,
artist and album on the plist path — once when `parseDict` stores each
string value and once during canonical normalization — and it is not
idempotent: for `"&#38;#38;"` a single unescape yields `"&#38;"` while
the canonical field holds the doubly-unescaped `"&"`. -/
theorem C10_amended_double_unescape :
    (∀ s a alb : String, cleanString s ≠ "" → cleanString (cleanString s) ≠ "" →
      cleanString a ≠ "" → cleanString (cleanString a) ≠ "" →
      cleanString alb ≠ "" →
      ∃ t : XTrack,
        getTracksForSpotifyX (extractTracksFrom ["1"]
          [.mk ["Name", "Artist", "Album"] [s, a, alb] [] [] 0 0 .nil]) [] none =
          .ok [t] ∧
        t.name = .str (cleanString (cleanString s)) ∧
        t.artist = .str (cleanString (cleanString a)) ∧
        t.album = .str (cleanString (cleanString alb))) ∧
    cleanString "&#38;#38;" = "&#38;" ∧
    cleanString (cleanString "&#38;#38;") ≠ cleanString "&#38;#38;" := by
  refine ⟨?_, by decide, by decide⟩
  intro s a alb hs1 hs2 ha1 ha2 halb1
  have hpd : parseDict (.mk ["Name", "Artist", "Album"] [s, a, alb] [] [] 0 0 .nil) =
      [("Name", .str (cleanString s)), ("Artist", .str (cleanString a)),
        ("Album", .str (cleanString alb))] := by
    simp [parseDict, decodeArrays, parseDictLoop, jsInsert]
  refine ⟨canonOf (jsInsert
    (parseDict (.mk ["Name", "Artist", "Album"] [s, a, alb] [] [] 0 0 .nil))
    "Track ID" (.int (jsParseInt "1"))), ?_, ?_, ?_, ?_⟩
  · simp [extractTracksFrom, trackKeepable, hpd, jsLookup, jsTruthyOpt, jsTruthy,
      getTracksForSpotifyX, canonList, validCanon, canonOf, jsInsert, jsOrV,
      cleanStringV, hs1, hs2, ha1, ha2]
  · simp [canonOf, hpd, jsInsert, jsLookup, jsOrV, jsTruthy, cleanStringV, hs1]
  · simp [canonOf, hpd, jsInsert, jsLookup, jsOrV, jsTruthy, cleanStringV, ha1]
  · simp [canonOf, hpd, jsInsert, jsLookup, jsOrV, jsTruthy, cleanStringV, halb1]

/-- Witness for the amended C10 at `s = alb = "&#38;#38;"`: the canonical
name and album hold the doubly-unescaped `"&"`, which differs from the
singly-unescaped stored value `"&#38;"`. -/
theorem C10_amended_double_unescape_witness :
    (cleanString "&#38;#38;" ≠ "" ∧ cleanString (cleanString "&#38;#38;") ≠ "" ∧
      cleanString "x" ≠ "" ∧ cleanString (cleanString "x") ≠ "") ∧
    (∃ t : XTrack,
      getTracksForSpotifyX (extractTracksFrom ["1"]
        [.mk ["Name", "Artist", "Album"] ["&#38;#38;", "x", "&#38;#38;"] [] [] 0 0 .nil])
        [] none = .ok [t] ∧
      t.name = .str (cleanString (cleanString "&#38;#38;")) ∧
      t.artist = .str (cleanString (cleanString "x")) ∧
      t.album = .str (cleanString (cleanString "&#38;#38;"))) :=
  ⟨⟨by decide, by decide, by decide, by decide⟩,
    C10_amended_double_unescape.1 "&#38;#38;" "x" "&#38;#38;"
      (by decide) (by decide) (by decide) (by decide) (by decide)⟩

/-- **C4 counterexample**: a playlist named `"P"` exists (exact name
match), yet both lookups raise an error, because the playlist has no
`Playlist Items` entry — the source throws `not found or has no tracks`
in that case, contradicting "succeeds regardless of its contents". -/
theorem C4_counterexample :
    (∃ p ∈ ([[("Name", PValue.str "P")]] : List JsObj), hasName p "P" = true) ∧
    getTracksForSpotifyX [] [[("Name", PValue.str "P")]] (some "P") =
      .error "Playlist \x22P\x22 not found or has no tracks" ∧
    getPlaylistInfoX [] [[("Name", PValue.str "P")]] "P" =
      .error "Playlist \x22P\x22 not found or has no tracks" :=
  ⟨⟨[("Name", PValue.str "P")], by simp, by decide⟩, rfl, rfl⟩

/-- **C4 amended**: for a truthy (nonempty) requested name, playlist
lookup uses exact string equality, and the lookup succeeds if and only
if a playlist with that exact name exists **and** the first such
playlist carries a decoded `Playlist Items` membership list; it fails
when no playlist has that name or when the named playlist's items entry
is absent, falsy, or not a decoded membership list. `getPlaylistInfo`
succeeds exactly when `getTracksForSpotify` does. -/
theorem C4_amended_lookup (tracks playlists : List JsObj) (pname : String) (hp : pname ≠ "") :
    (isOkE (getTracksForSpotifyX tracks playlists (some pname)) = true ↔
      ∃ p l, playlists.find? (fun q => hasName q pname) = some p ∧
        jsLookup p "Playlist Items" = some (.items l)) ∧
    (playlists.find? (fun q => hasName q pname) = none ↔
      ∀ p ∈ playlists, hasName p pname = false) ∧
    (isOkE (getPlaylistInfoX tracks playlists pname) =
      isOkE (getTracksForSpotifyX tracks playlists (some pname))) := by
  refine ⟨?_, ?_, ?_⟩
  · rcases hfind : playlists.find? (fun q => hasName q pname) with _ | playlist
    · simp [getTracksForSpotifyX, hp, hfind, isOkE]
    · rcases hit : jsLookup playlist "Playlist Items" with _ | v
      · simp [getTracksForSpotifyX, hp, hfind, hit, isOkE]
      · cases v with
        | items l => simp [getTracksForSpotifyX, hp, hfind, hit, isOkE, jsTruthy]
        | str s =>
          by_cases hs : s = ""
          · simp [getTracksForSpotifyX, hp, hfind, hit, isOkE, jsTruthy, hs]
          · simp [getTracksForSpotifyX, hp, hfind, hit, isOkE, jsTruthy, hs]
        | int n =>
          cases n with
          | none => simp [getTracksForSpotifyX, hp, hfind, hit, isOkE, jsTruthy]
          | some m =>
            by_cases hm : m = 0
            · simp [getTracksForSpotifyX, hp, hfind, hit, isOkE, jsTruthy, hm]
            · simp [getTracksForSpotifyX, hp, hfind, hit, isOkE, jsTruthy, hm]
        | date raw => simp [getTracksForSpotifyX, hp, hfind, hit, isOkE, jsTruthy]
        | bool b => cases b <;> simp [getTracksForSpotifyX, hp, hfind, hit, isOkE, jsTruthy]
        | arr ch => simp [getTracksForSpotifyX, hp, hfind, hit, isOkE, jsTruthy]
  · rw [List.find?_eq_none]
    simp
  · rcases hfind : playlists.find? (fun q => hasName q pname) with _ | playlist
    · simp [getTracksForSpotifyX, getPlaylistInfoX, hp, hfind, isOkE]
    · rcases hres : getTracksForSpotifyX tracks playlists (some pname) with e | r
      · simp [getPlaylistInfoX, hfind, hres, isOkE, Except.map]
      · simp [getPlaylistInfoX, hfind, hres, isOkE, Except.map]

/-- Witness for the amended C4 on a concrete library whose playlist
carries an (empty) membership list. -/
theorem C4_amended_lookup_witness :
    ("P" : String) ≠ "" ∧
    (isOkE (getTracksForSpotifyX []
        [[("Name", PValue.str "P"), ("Playlist Items", PValue.items [])]]
        (some "P")) = true ↔
      ∃ p l, ([[("Name", PValue.str "P"), ("Playlist Items", PValue.items [])]] :
          List JsObj).find? (fun q => hasName q "P") = some p ∧
        jsLookup p "Playlist Items" = some (.items l)) :=
  ⟨by decide,
    (C4_amended_lookup []
      [[("Name", PValue.str "P"), ("Playlist Items", PValue.items [])]]
      "P" (by decide)).1⟩

/-- Inserting a fresh key appends the entry. -/
theorem jsInsert_fresh {α : Type} (o : List (String × α)) (k : String) (v : α)
    (h : ∀ p ∈ o, p.1 ≠ k) : jsInsert o k v = o ++ [(k, v)] := by
  unfold jsInsert
  have hany : o.any (fun p => p.1 == k) = false := by
    simp only [List.any_eq_false]
    intro p hp
    simpa using h p hp
  simp [hany]

/-- Folding `jsInsert` over pairwise-fresh entries starting from a record
disjoint from them appends them all in order. -/
theorem foldl_jsInsert_fresh {α : Type} :
    ∀ (ps acc : List (String × α)),
      (∀ p ∈ ps, ∀ q ∈ acc, q.1 ≠ p.1) → (ps.map Prod.fst).Nodup →
      ps.foldl (fun o kv => jsInsert o kv.1 kv.2) acc = acc ++ ps := by
  intro ps
  induction ps with
  | nil => intro acc _ _; simp
  | cons p rest ih =>
    intro acc hdisj hnd
    have hfresh : ∀ q ∈ acc, q.1 ≠ p.1 := fun q hq => hdisj p (by simp) q hq
    have hins : jsInsert acc p.1 p.2 = acc ++ [(p.1, p.2)] :=
      jsInsert_fresh acc p.1 p.2 hfresh
    have hnd' : (rest.map Prod.fst).Nodup := by
      simpa using hnd.of_cons
    have hdisj' : ∀ r ∈ rest, ∀ q ∈ acc ++ [(p.1, p.2)], q.1 ≠ r.1 := by
      intro r hr q hq
      rcases List.mem_append.mp hq with hq | hq
      · exact hdisj r (by simp [hr]) q hq
      · simp only [List.mem_singleton] at hq
        subst hq
        have : p.1 ∉ rest.map Prod.fst := by
          simp only [List.map_cons, List.nodup_cons] at hnd
          exact hnd.1
        simp only [List.mem_map] at this
        intro hc
        exact this ⟨r, hr, hc.symm⟩
    calc (p :: rest).foldl (fun o kv => jsInsert o kv.1 kv.2) acc
        = rest.foldl (fun o kv => jsInsert o kv.1 kv.2) (acc ++ [(p.1, p.2)]) := by
          simp [hins]
      _ = (acc ++ [(p.1, p.2)]) ++ rest := ih _ hdisj' hnd'
      _ = acc ++ p :: rest := by simp

/-- In a record with pairwise-distinct keys, looking up the `i`-th key
yields the `i`-th value. -/
theorem jsLookup_get_of_nodup {α : Type} :
    ∀ (l : List (String × α)), (l.map Prod.fst).Nodup →
      ∀ i (hi : i < l.length),
        jsLookup l (l.get ⟨i, hi⟩).1 = some (l.get ⟨i, hi⟩).2 := by
  intro l
  induction l with
  | nil => intro _ i hi; exact absurd hi (by simp)
  | cons p rest ih =>
    intro hnd i hi
    cases i with
    | zero => simp [jsLookup]
    | succ j =>
      have hj : j < rest.length := by simpa using hi
      have hget : ((p :: rest).get ⟨j + 1, hi⟩) = rest.get ⟨j, hj⟩ := rfl
      have hmem : rest.get ⟨j, hj⟩ ∈ rest := List.get_mem rest j hj
      have hne : p.1 ≠ (rest.get ⟨j, hj⟩).1 := by
        simp only [List.map_cons, List.nodup_cons, List.mem_map] at hnd
        intro hc
        exact hnd.1 ⟨rest.get ⟨j, hj⟩, hmem, hc.symm⟩
      have hnd' : (rest.map Prod.fst).Nodup := by
        simp only [List.map_cons, List.nodup_cons] at hnd
        exact hnd.2
      rw [hget]
      have hne' : ¬(p.1 == (rest.get ⟨j, hj⟩).1) = true := by
        simpa using hne
      have := ih hnd' j hj
      simp only [jsLookup] at this ⊢
      have hfind : List.find? (fun q : String × α => q.1 == (rest.get ⟨j, hj⟩).1) (p :: rest) =
          List.find? (fun q : String × α => q.1 == (rest.get ⟨j, hj⟩).1) rest :=
        List.find?_cons_of_neg _ hne'
      rw [hfind]
      exact this

/-- With pairwise-distinct headers, a decoded row is the headers zipped
with their positional values. -/
theorem rowRecord_eq (headers values : List String) (hnd : headers.Nodup) :
    rowRecord headers values =
      headers.enum.map (fun hi => (hi.2, jsGetOrEmpty values hi.1)) := by
  have hk : ((headers.enum.map
      (fun hi : Nat × String => (hi.2, jsGetOrEmpty values hi.1))).map Prod.fst).Nodup := by
    rw [List.map_map]
    have he : (Prod.fst ∘ fun hi : Nat × String => (hi.2, jsGetOrEmpty values hi.1)) =
        Prod.snd := rfl
    rw [he, List.enum_map_snd]
    exact hnd
  unfold rowRecord
  calc headers.enum.foldl (fun o hi => jsInsert o hi.2 (jsGetOrEmpty values hi.1)) []
      = (headers.enum.map (fun hi : Nat × String => (hi.2, jsGetOrEmpty values hi.1))).foldl
          (fun o kv => jsInsert o kv.1 kv.2) [] := by
        rw [List.foldl_map]
    _ = [] ++ headers.enum.map (fun hi : Nat × String => (hi.2, jsGetOrEmpty values hi.1)) :=
        foldl_jsInsert_fresh _ _ (by simp) hk
    _ = _ := by simp

/-- Looking up the `i`-th header in a decoded row yields the `i`-th
value (or `""` past the row's end). -/
theorem rowRecord_lookup (headers values : List String) (hnd : headers.Nodup)
    (i : Nat) (hi : i < headers.length) :
    jsLookup (rowRecord headers values) (headers.get ⟨i, hi⟩) =
      some (jsGetOrEmpty values i) := by
  have hk : ((headers.enum.map
      (fun hi : Nat × String => (hi.2, jsGetOrEmpty values hi.1))).map Prod.fst).Nodup := by
    rw [List.map_map]
    have he : (Prod.fst ∘ fun hi : Nat × String => (hi.2, jsGetOrEmpty values hi.1)) =
        Prod.snd := rfl
    rw [he, List.enum_map_snd]
    exact hnd
  rw [rowRecord_eq headers values hnd]
  have hi' : i < (headers.enum.map
      (fun hi : Nat × String => (hi.2, jsGetOrEmpty values hi.1))).length := by
    simpa using hi
  have hget : ((headers.enum.map
      (fun hi : Nat × String => (hi.2, jsGetOrEmpty values hi.1))).get ⟨i, hi'⟩) =
      (headers.get ⟨i, hi⟩, jsGetOrEmpty values i) := by
    simp [List.get_eq_getElem, List.getElem_map, List.getElem_enum]
  have hlk := jsLookup_get_of_nodup _ hk i hi'
  rw [hget] at hlk
  exact hlk

/-- **C6 counterexample**: with the duplicated header row `"A\tA"` and
data row `"x\ty"`, the decoded record holds the *last* positional value
of the duplicated header, so `record[H[0]] ≠ R[0]`. -/
theorem C6_counterexample :
    jsSplit '\t' "A\tA" = ["A", "A"] ∧ jsSplit '\t' "x\ty" = ["x", "y"] ∧
    parseLines ["A\tA", "x\ty"] = .ok [[("A", "y")]] ∧
    jsLookup ([("A", "y")] : List (String × String)) "A" ≠ some "x" :=
  ⟨by decide, by decide, rfl, by decide⟩

/-- **C6 amended**: provided the declared headers are pairwise distinct,
the tab decoder fails with the empty-input error exactly when every line
is whitespace-only; whitespace-only lines anywhere (including between
header and data) produce no record; every non-blank data row decodes to
one record in which each header is bound to its positional value, with
`""` for the fields a short row is missing, and excess fields of a long
row ignored. -/
theorem C6_tab_decode_amended :
    (∀ lines0 : List String, parseLines lines0 = .error "File is empty" ↔
      ∀ l ∈ lines0, jsTrim l = "") ∧
    (∀ pre post : List String, ∀ ws, jsTrim ws = "" →
      parseLines (pre ++ ws :: post) = parseLines (pre ++ post)) ∧
    (∀ lines0 h rest, lines0.filter (fun l => jsTrim l != "") = h :: rest →
      parseLines lines0 = .ok (rest.map (fun line =>
        rowRecord (jsSplit '\t' h) (jsSplit '\t' line)))) ∧
    (∀ headers values : List String, headers.Nodup → ∀ i, ∀ hi : i < headers.length,
      jsLookup (rowRecord headers values) (headers.get ⟨i, hi⟩) =
        some (jsGetOrEmpty values i) ∧
      (∀ hv : i < values.length, jsGetOrEmpty values i = values.get ⟨i, hv⟩) ∧
      (values.length ≤ i → jsGetOrEmpty values i = "")) := by
  refine ⟨?_, ?_, ?_, ?_⟩
  · intro lines0
    rcases hf : lines0.filter (fun l => jsTrim l != "") with _ | ⟨h, rest⟩
    · constructor
      · intro _ l hl
        by_contra hne
        have hmm : l ∈ lines0.filter (fun l => jsTrim l != "") :=
          List.mem_filter.mpr ⟨hl, by simpa using hne⟩
        rw [hf] at hmm
        simp at hmm
      · intro _
        simp [parseLines, hf]
    · constructor
      · intro he
        exact absurd he (by simp [parseLines, hf])
      · intro hall
        exfalso
        have hh : h ∈ lines0.filter (fun l => jsTrim l != "") := by
          rw [hf]
          exact List.mem_cons_self _ _
        obtain ⟨hmem, hp⟩ := List.mem_filter.mp hh
        rw [hall h hmem] at hp
        simp at hp
  · intro pre post ws hws
    have hfe : (pre ++ ws :: post).filter (fun l => jsTrim l != "") =
        (pre ++ post).filter (fun l => jsTrim l != "") := by
      simp [List.filter_append, List.filter_cons, hws]
    unfold parseLines
    rw [hfe]
  · intro lines0 h rest hf
    simp [parseLines, hf]
  · intro headers values hnd i hi
    refine ⟨rowRecord_lookup headers values hnd i hi, ?_, ?_⟩
    · intro hv
      simp [jsGetOrEmpty, List.getElem?_eq_getElem hv]
    · intro hv
      simp [jsGetOrEmpty, List.getElem?_eq_none hv]

/-- Witness for the amended C6: header `"B"` of a one-field row decodes
to the empty string. -/
theorem C6_tab_decode_amended_witness :
    (["A", "B"] : List String).Nodup ∧
    (jsLookup (rowRecord ["A", "B"] ["x"]) ((["A", "B"] : List String).get ⟨1, by decide⟩) =
        some (jsGetOrEmpty ["x"] 1) ∧
      (∀ hv : 1 < (["x"] : List String).length,
        jsGetOrEmpty ["x"] 1 = (["x"] : List String).get ⟨1, hv⟩) ∧
      ((["x"] : List String).length ≤ 1 → jsGetOrEmpty ["x"] 1 = "")) :=
  ⟨by decide, C6_tab_decode_amended.2.2.2 ["A", "B"] ["x"] (by decide) 1 (by decide)⟩

/-- The loop of `parseDict` draws, for each key in order, the next
unconsumed value of the fixed-precedence bucket stream. -/
theorem parseDictLoop_eq_stream :
    ∀ (ks ss ints dats : List String) (ts fs : Nat)
      (arrs : List (DictChildren × List JsObj)) (acc : JsObj),
      parseDictLoop ks ss ints dats ts fs arrs acc =
        (ks.zip (bucketStream ss ints dats ts fs arrs)).foldl
          (fun o kv => jsInsert o kv.1 (kv.2 kv.1)) acc := by
  intro ks
  induction ks with
  | nil => intro ss ints dats ts fs arrs acc; rfl
  | cons k ks ih =>
    intro ss ints dats ts fs arrs acc
    cases ss with
    | cons s sr => simp [parseDictLoop, bucketStream, ih, List.replicate_succ]
    | nil =>
      cases ints with
      | cons i ir => simp [parseDictLoop, bucketStream, ih, List.replicate_succ]
      | nil =>
        cases dats with
        | cons d dr => simp [parseDictLoop, bucketStream, ih, List.replicate_succ]
        | nil =>
          cases ts with
          | succ t => simp [parseDictLoop, bucketStream, ih, List.replicate_succ]
          | zero =>
            cases fs with
            | succ f => simp [parseDictLoop, bucketStream, ih, List.replicate_succ]
            | zero =>
              cases arrs with
              | cons a ar => simp [parseDictLoop, bucketStream, ih, List.replicate_succ]
              | nil => simp [parseDictLoop, bucketStream, ih, List.replicate_succ]

/-- The precedence stream holds one value per bucket entry. -/
theorem bucketStream_length (ss ints dats : List String) (ts fs : Nat)
    (arrs : List (DictChildren × List JsObj)) :
    (bucketStream ss ints dats ts fs arrs).length =
      ss.length + ints.length + dats.length + ts + fs + arrs.length := by
  simp [bucketStream]
  omega

/-- Decoding pairs every array node with its children. -/
theorem decodeArrays_length : ∀ (ab : ArrBucket),
    (decodeArrays ab).length = ab.length
  | .nil => rfl
  | .cons children rest => by
    simp [decodeArrays, ArrBucket.length, decodeArrays_length rest]
    omega

/-- The first components of a zip are the first list, truncated to the
second's length. -/
theorem map_fst_zip_take {α β : Type} :
    ∀ (l1 : List α) (l2 : List β), (l1.zip l2).map Prod.fst = l1.take l2.length := by
  intro l1
  induction l1 with
  | nil => intro l2; simp
  | cons a l1 ih =>
    intro l2
    cases l2 with
    | nil => simp
    | cons b l2 => simp [ih]

/-- In a duplicate-free list, an element at position at or past `n` does
not occur among the first `n` elements. -/
theorem not_mem_take_of_nodup {α : Type} (l : List α) (n i : Nat)
    (hi : i < l.length) (hnd : l.Nodup) (hn : n ≤ i) :
    l.get ⟨i, hi⟩ ∉ l.take n := by
  intro hmem
  obtain ⟨⟨j, hj⟩, hget⟩ := List.mem_iff_get.mp hmem
  have hj' : j < n ∧ j < l.length := by
    simpa [List.length_take] using hj
  have hgetl : (l.take n).get ⟨j, hj⟩ = l.get ⟨j, hj'.2⟩ := by
    simp [List.get_eq_getElem, List.getElem_take]
  rw [hgetl] at hget
  have hij : j = i := by
    have := (List.Nodup.get_inj_iff hnd).mp hget
    simpa using this
  omega

/-- **C2 amended**: provided the declared keys are pairwise distinct:
the record's keys are, in order, exactly the declared keys a value was
available for (the declared list truncated to the number of available
values); each such key's value is position `i` of the fixed-precedence
stream (strings, then integers, dates, true markers, false markers,
nested arrays), each bucket's cursor advancing by one per drawn value;
every key reached after all buckets are exhausted is omitted from the
record (its lookup is `undefined`); and when the total number of
available typed values equals the number of declared keys, the record
has exactly one entry per key in declared key order. -/
theorem C2_precedence_decode_amended (ks ss ints dats : List String) (ts fs : Nat)
    (ab : ArrBucket) (hnd : ks.Nodup) :
    ((parseDict (.mk ks ss ints dats ts fs ab)).map Prod.fst =
      ks.take (ss.length + ints.length + dats.length + ts + fs + ab.length)) ∧
    (∀ i (hi : i < ks.length)
        (hs : i < (bucketStream ss ints dats ts fs (decodeArrays ab)).length),
      jsLookup (parseDict (.mk ks ss ints dats ts fs ab)) (ks.get ⟨i, hi⟩) =
        some ((bucketStream ss ints dats ts fs (decodeArrays ab)).get ⟨i, hs⟩
          (ks.get ⟨i, hi⟩))) ∧
    (∀ i (hi : i < ks.length),
      ss.length + ints.length + dats.length + ts + fs + ab.length ≤ i →
      jsLookup (parseDict (.mk ks ss ints dats ts fs ab)) (ks.get ⟨i, hi⟩) = none) ∧
    (ss.length + ints.length + dats.length + ts + fs + ab.length = ks.length →
      (parseDict (.mk ks ss ints dats ts fs ab)).map Prod.fst = ks) := by
  have hslen : (bucketStream ss ints dats ts fs (decodeArrays ab)).length =
      ss.length + ints.length + dats.length + ts + fs + ab.length := by
    rw [bucketStream_length, decodeArrays_length]
  have hfst : (Prod.fst ∘ fun kv : String × (String → PValue) => (kv.1, kv.2 kv.1)) =
      Prod.fst := rfl
  have hmapfst0 : (((ks.zip (bucketStream ss ints dats ts fs (decodeArrays ab))).map
      (fun kv => (kv.1, kv.2 kv.1))).map Prod.fst) =
      ks.take (bucketStream ss ints dats ts fs (decodeArrays ab)).length := by
    rw [List.map_map, hfst]
    exact map_fst_zip_take ks _
  have hkndL : ((((ks.zip (bucketStream ss ints dats ts fs (decodeArrays ab))).map
      (fun kv => (kv.1, kv.2 kv.1))).map Prod.fst)).Nodup := by
    rw [hmapfst0]
    exact (List.take_sublist _ _).nodup hnd
  have hrec : parseDict (.mk ks ss ints dats ts fs ab) =
      (ks.zip (bucketStream ss ints dats ts fs (decodeArrays ab))).map
        (fun kv => (kv.1, kv.2 kv.1)) := by
    have h1 : parseDict (.mk ks ss ints dats ts fs ab) =
        (ks.zip (bucketStream ss ints dats ts fs (decodeArrays ab))).foldl
          (fun o kv => jsInsert o kv.1 (kv.2 kv.1)) [] := by
      show parseDictLoop ks ss ints dats ts fs (decodeArrays ab) [] = _
      exact parseDictLoop_eq_stream ks ss ints dats ts fs (decodeArrays ab) []
    rw [h1, ← List.foldl_map (fun kv : String × (String → PValue) => (kv.1, kv.2 kv.1))
      (fun o kv => jsInsert o kv.1 kv.2)]
    exact (foldl_jsInsert_fresh _ [] (by simp) hkndL).trans (by simp)
  have hc1 : (parseDict (.mk ks ss ints dats ts fs ab)).map Prod.fst =
      ks.take (ss.length + ints.length + dats.length + ts + fs + ab.length) := by
    rw [hrec, hmapfst0, hslen]
  refine ⟨hc1, ?_, ?_, ?_⟩
  · intro i hi hs
    have hiL : i < ((ks.zip (bucketStream ss ints dats ts fs (decodeArrays ab))).map
        (fun kv => (kv.1, kv.2 kv.1))).length := by
      simp only [List.length_map, List.length_zip]
      omega
    have hlk := jsLookup_get_of_nodup _ hkndL i hiL
    have hgetL : (((ks.zip (bucketStream ss ints dats ts fs (decodeArrays ab))).map
        (fun kv => (kv.1, kv.2 kv.1))).get ⟨i, hiL⟩) =
        (ks.get ⟨i, hi⟩,
          (bucketStream ss ints dats ts fs (decodeArrays ab)).get ⟨i, hs⟩
            (ks.get ⟨i, hi⟩)) := by
      simp [List.get_eq_getElem, List.getElem_map, List.getElem_zip]
    rw [hgetL] at hlk
    rw [hrec]
    exact hlk
  · intro i hi hle
    have hnm : ks.get ⟨i, hi⟩ ∉
        ks.take (bucketStream ss ints dats ts fs (decodeArrays ab)).length :=
      not_mem_take_of_nodup ks _ i hi hnd (by omega)
    rw [hrec]
    have hfindnone : List.find? (fun p => p.1 == ks.get ⟨i, hi⟩)
        ((ks.zip (bucketStream ss ints dats ts fs (decodeArrays ab))).map
          (fun kv => (kv.1, kv.2 kv.1))) = none := by
      rw [List.find?_eq_none]
      intro p hp hbeq
      have hp1 : p.1 ∈ ks.take (bucketStream ss ints dats ts fs (decodeArrays ab)).length := by
        rw [← hmapfst0]
        exact List.mem_map_of_mem Prod.fst hp
      have hpe : p.1 = ks.get ⟨i, hi⟩ := by simpa using hbeq
      rw [hpe] at hp1
      exact hnm hp1
    unfold jsLookup
    rw [hfindnone]
    rfl
  · intro htot
    rw [hc1, htot, List.take_length]

/-- **C2 counterexample**: with the duplicated key list `["A", "A"]` and
exactly two available typed values, the decoded record has a single
entry (JS object assignment overwrites the key), not one entry per
declared key. -/
theorem C2_counterexample :
    (["x", "y"] : List String).length + ([] : List String).length +
      ([] : List String).length + 0 + 0 + ArrBucket.length .nil =
      (["A", "A"] : List String).length ∧
    parseDict (.mk ["A", "A"] ["x", "y"] [] [] 0 0 .nil) = [("A", .str "y")] ∧
    (parseDict (.mk ["A", "A"] ["x", "y"] [] [] 0 0 .nil)).map Prod.fst ≠ ["A", "A"] :=
  ⟨by decide, rfl, by decide⟩

/-- Witness for the amended C2: a six-key dict drawing one value from
every bucket decodes to one entry per key in declared order, and a key
past the available values is omitted. -/
theorem C2_precedence_decode_amended_witness :
    ((["S", "I", "D", "T", "F", "AR"] : List String).Nodup ∧
      (["s"] : List String).length + (["5"] : List String).length +
        (["2020"] : List String).length + 1 + 1 + ArrBucket.length (.cons .nil .nil) =
        (["S", "I", "D", "T", "F", "AR"] : List String).length ∧
      (parseDict (.mk ["S", "I", "D", "T", "F", "AR"] ["s"] ["5"] ["2020"] 1 1
          (.cons .nil .nil))).map Prod.fst = ["S", "I", "D", "T", "F", "AR"]) ∧
    ((["A", "B"] : List String).Nodup ∧
      jsLookup (parseDict (.mk ["A", "B"] ["x"] [] [] 0 0 .nil))
        ((["A", "B"] : List String).get ⟨1, by decide⟩) = none) :=
  ⟨⟨by decide, by decide,
    (C2_precedence_decode_amended ["S", "I", "D", "T", "F", "AR"] ["s"] ["5"] ["2020"]
      1 1 (.cons .nil .nil) (by decide)).2.2.2 (by decide)⟩,
   ⟨by decide,
    (C2_precedence_decode_amended ["A", "B"] ["x"] [] [] 0 0 .nil
      (by decide)).2.2.1 1 (by decide) (by decide)⟩⟩

/-- The duration tier contributes a nonnegative amount. -/
theorem durationScore_nonneg (d ms : Option Int) : 0 ≤ durationScore d ms := by
  unfold durationScore
  split_ifs with h
  · rcases d with _ | dv <;> rcases ms with _ | msv <;> simp <;> split_ifs <;> norm_num
  · norm_num

/-- Every defined (and defaulted) score is nonnegative: all tiers only
add. -/
theorem scOf_nonneg (ot : CTrack) (c : Candidate) : 0 ≤ scOf ot c := by
  unfold scOf computeScore
  rcases hart : c.artists with _ | ⟨a, r⟩
  · simp
  · simp only [List.head?, Option.getD_some]
    have h4 := durationScore_nonneg ot.duration c.duration_ms
    split_ifs <;> omega

/-- A candidate with at least one artist always has a defined score. -/
theorem computeScore_isSome_of (ot : CTrack) (c : Candidate)
    (h : c.artists ≠ []) : (computeScore ot c).isSome = true := by
  unfold computeScore
  rcases hart : c.artists with _ | ⟨a, r⟩
  · exact absurd hart h
  · simp [hart]

/-- When every score is defined the `Except` scan is the pure
best-so-far fold. -/
theorem scanBest_ok (ot : CTrack) :
    ∀ (cs : List Candidate) (st : Candidate × Int),
      (∀ c ∈ cs, (computeScore ot c).isSome = true) →
      scanBest ot cs st = .ok (cs.foldl (scanStep ot) st) := by
  intro cs
  induction cs with
  | nil => intro st _; rfl
  | cons c cs ih =>
    intro st hdef
    obtain ⟨s, hs⟩ := Option.isSome_iff_exists.mp (hdef c (by simp))
    obtain ⟨bm, bs⟩ := st
    simp only [scanBest, hs, List.foldl_cons]
    rw [ih _ (fun c' hc' => hdef c' (by simp [hc']))]
    have hstep : (if s > bs then (c, s) else (bm, bs)) = scanStep ot (bm, bs) c := by
      simp [scanStep, scOf, hs]
    rw [hstep]

/-- Characterization of the strict-improvement fold: either no candidate
beats the carried score and the carried state survives, or the fold
returns the *first* candidate attaining the maximum of the scores that
beat it (every candidate scores no higher; every earlier candidate
scores strictly lower). -/
theorem scanFold_spec (ot : CTrack) :
    ∀ (cs : List Candidate) (bm : Candidate) (bs : Int),
      (cs.foldl (scanStep ot) (bm, bs) = (bm, bs) ∧
        ∀ c ∈ cs, scOf ot c ≤ bs) ∨
      (∃ i, ∃ hi : i < cs.length,
        cs.foldl (scanStep ot) (bm, bs) =
          (cs.get ⟨i, hi⟩, scOf ot (cs.get ⟨i, hi⟩)) ∧
        bs < scOf ot (cs.get ⟨i, hi⟩) ∧
        (∀ j, ∀ hj : j < cs.length,
          scOf ot (cs.get ⟨j, hj⟩) ≤ scOf ot (cs.get ⟨i, hi⟩)) ∧
        (∀ j, ∀ hj : j < i,
          scOf ot (cs.get ⟨j, Nat.lt_trans hj hi⟩) < scOf ot (cs.get ⟨i, hi⟩))) := by
  intro cs
  induction cs with
  | nil =>
    intro bm bs
    left
    exact ⟨rfl, by simp⟩
  | cons c cs ih =>
    intro bm bs
    by_cases hc : scOf ot c > bs
    · have hstep : (c :: cs).foldl (scanStep ot) (bm, bs) =
          cs.foldl (scanStep ot) (c, scOf ot c) := by
        simp [scanStep, hc]
      rcases ih c (scOf ot c) with ⟨heq, hall⟩ | ⟨i, hi, heq, hgt, hmax, hstrict⟩
      · right
        refine ⟨0, by simp, ?_, hc, ?_, ?_⟩
        · rw [hstep, heq]
          rfl
        · intro j hj
          cases j with
          | zero => exact le_refl _
          | succ j' =>
            have hj' : j' < cs.length := by simpa using hj
            exact hall _ (List.get_mem cs j' hj')
        · intro j hj
          exact absurd hj (Nat.not_lt_zero j)
      · right
        refine ⟨i + 1, by simpa using Nat.succ_lt_succ hi, ?_, ?_, ?_, ?_⟩
        · rw [hstep, heq]
          rfl
        · exact lt_trans hc hgt
        · intro j hj
          cases j with
          | zero => exact le_of_lt hgt
          | succ j' => exact hmax j' (by simpa using hj)
        · intro j hj
          cases j with
          | zero => exact hgt
          | succ j' => exact hstrict j' (by omega)
    · have hstep : (c :: cs).foldl (scanStep ot) (bm, bs) =
          cs.foldl (scanStep ot) (bm, bs) := by
        simp [scanStep, hc]
      have hcle : scOf ot c ≤ bs := not_lt.mp hc
      rcases ih bm bs with ⟨heq, hall⟩ | ⟨i, hi, heq, hgt, hmax, hstrict⟩
      · left
        refine ⟨by rw [hstep, heq], ?_⟩
        intro c' hc'
        rcases List.mem_cons.mp hc' with rfl | h'
        · exact hcle
        · exact hall _ h'
      · right
        refine ⟨i + 1, by simpa using Nat.succ_lt_succ hi, ?_, hgt, ?_, ?_⟩
        · rw [hstep, heq]
          rfl
        · intro j hj
          cases j with
          | zero => exact le_of_lt (lt_of_le_of_lt hcle hgt)
          | succ j' => exact hmax j' (by simpa using hj)
        · intro j hj
          cases j with
          | zero => exact lt_of_le_of_lt hcle hgt
          | succ j' => exact hstrict j' (by omega)

/-- **C1**: for two or more candidates with defined scores, the scorer
scans in input order starting from the first candidate with best score
0 and replaces the best only on a strictly greater score, so the
returned candidate is the *earliest* one attaining the maximal score —
on ties the earlier candidate wins. -/
theorem C1_tie_break_first_seen (ot : CTrack) (c0 c1 : Candidate) (rest : List Candidate)
    (hdef : ∀ c ∈ c0 :: c1 :: rest, (computeScore ot c).isSome = true) :
    ∃ i, ∃ hi : i < (c0 :: c1 :: rest).length,
      findBestMatch (c0 :: c1 :: rest) ot =
        .ok (some ((c0 :: c1 :: rest).get ⟨i, hi⟩)) ∧
      (∀ j, ∀ hj : j < (c0 :: c1 :: rest).length,
        scOf ot ((c0 :: c1 :: rest).get ⟨j, hj⟩) ≤
          scOf ot ((c0 :: c1 :: rest).get ⟨i, hi⟩)) ∧
      (∀ j, ∀ hj : j < i,
        scOf ot ((c0 :: c1 :: rest).get ⟨j, Nat.lt_trans hj hi⟩) <
          scOf ot ((c0 :: c1 :: rest).get ⟨i, hi⟩)) := by
  have hscan := scanBest_ok ot (c0 :: c1 :: rest) (c0, 0) hdef
  have hfbm : findBestMatch (c0 :: c1 :: rest) ot =
      .ok (some ((c0 :: c1 :: rest).foldl (scanStep ot) (c0, 0)).1) := by
    simp [findBestMatch, hscan, Except.map]
  rcases scanFold_spec ot (c0 :: c1 :: rest) c0 0 with
    ⟨heq, hall⟩ | ⟨i, hi, heq, _, hmax, hstrict⟩
  · refine ⟨0, by simp, ?_, ?_, ?_⟩
    · rw [hfbm, heq]
      rfl
    · intro j hj
      calc scOf ot ((c0 :: c1 :: rest).get ⟨j, hj⟩)
          ≤ 0 := hall _ (List.get_mem _ j hj)
        _ ≤ scOf ot ((c0 :: c1 :: rest).get ⟨0, by simp⟩) := scOf_nonneg ot _
    · intro j hj
      exact absurd hj (Nat.not_lt_zero j)
  · exact ⟨i, hi, by rw [hfbm, heq], hmax, hstrict⟩

/-- The fold result is the initial carried candidate or one of the
scanned candidates. -/
theorem scanFold_mem (ot : CTrack) :
    ∀ (cs : List Candidate) (st : Candidate × Int),
      (cs.foldl (scanStep ot) st).1 = st.1 ∨ (cs.foldl (scanStep ot) st).1 ∈ cs := by
  intro cs
  induction cs with
  | nil =>
    intro st
    left
    rfl
  | cons c cs ih =>
    intro st
    rcases ih (scanStep ot st c) with h | h
    · by_cases hc : scOf ot c > st.2
      · right
        rw [List.foldl_cons, h]
        simp [scanStep, hc]
      · left
        rw [List.foldl_cons, h]
        simp [scanStep, hc]
    · right
      rw [List.foldl_cons]
      exact List.mem_cons_of_mem _ h

/-- **C3 amended**: best-match selection is total *provided every
candidate lists at least one artist*: it never throws, returns `null`
exactly on an empty candidate list, and otherwise returns one of the
candidates. (Without that proviso the selection throws, see
`C3_counterexample`.) -/
theorem C3_total_amended (searchResults : List Candidate) (ot : CTrack)
    (hart : ∀ c ∈ searchResults, c.artists ≠ []) :
    ∃ r, findBestMatch searchResults ot = .ok r ∧
      (r = none ↔ searchResults = []) ∧
      (∀ c, r = some c → c ∈ searchResults) := by
  cases searchResults with
  | nil => exact ⟨none, rfl, by simp, by simp⟩
  | cons t0 rest =>
    cases rest with
    | nil =>
      refine ⟨some t0, rfl, by simp, ?_⟩
      intro c hc
      simp only [Option.some.injEq] at hc
      subst hc
      simp
    | cons t1 rest2 =>
      have hdef : ∀ c ∈ t0 :: t1 :: rest2, (computeScore ot c).isSome = true :=
        fun c hc => computeScore_isSome_of ot c (hart c hc)
      have hscan := scanBest_ok ot (t0 :: t1 :: rest2) (t0, 0) hdef
      refine ⟨some ((t0 :: t1 :: rest2).foldl (scanStep ot) (t0, 0)).1,
        by simp [findBestMatch, hscan, Except.map], by simp, ?_⟩
      intro c hc
      simp only [Option.some.injEq] at hc
      subst hc
      rcases scanFold_mem ot (t0 :: t1 :: rest2) (t0, 0) with h | h
      · rw [h]
        simp
      · exact h

/-- Witness for C1: two identically-scoring candidates; the theorem
applies and the earlier one is selected. -/
theorem C1_tie_break_first_seen_witness :
    (∀ c ∈ [(⟨"a", ["b"], "", some 0⟩ : Candidate), ⟨"a", ["b"], "", some 0⟩],
      (computeScore ⟨"a", "b", "", some 0⟩ c).isSome = true) ∧
    (∃ i, ∃ hi : i < ([(⟨"a", ["b"], "", some 0⟩ : Candidate),
        ⟨"a", ["b"], "", some 0⟩] : List Candidate).length,
      findBestMatch [⟨"a", ["b"], "", some 0⟩, ⟨"a", ["b"], "", some 0⟩]
          ⟨"a", "b", "", some 0⟩ =
        .ok (some (([(⟨"a", ["b"], "", some 0⟩ : Candidate),
          ⟨"a", ["b"], "", some 0⟩] : List Candidate).get ⟨i, hi⟩)) ∧
      (∀ j, ∀ hj : j < ([(⟨"a", ["b"], "", some 0⟩ : Candidate),
          ⟨"a", ["b"], "", some 0⟩] : List Candidate).length,
        scOf ⟨"a", "b", "", some 0⟩
            (([(⟨"a", ["b"], "", some 0⟩ : Candidate),
              ⟨"a", ["b"], "", some 0⟩] : List Candidate).get ⟨j, hj⟩) ≤
          scOf ⟨"a", "b", "", some 0⟩
            (([(⟨"a", ["b"], "", some 0⟩ : Candidate),
              ⟨"a", ["b"], "", some 0⟩] : List Candidate).get ⟨i, hi⟩)) ∧
      (∀ j, ∀ hj : j < i,
        scOf ⟨"a", "b", "", some 0⟩
            (([(⟨"a", ["b"], "", some 0⟩ : Candidate),
              ⟨"a", ["b"], "", some 0⟩] : List Candidate).get
              ⟨j, Nat.lt_trans hj hi⟩) <
          scOf ⟨"a", "b", "", some 0⟩
            (([(⟨"a", ["b"], "", some 0⟩ : Candidate),
              ⟨"a", ["b"], "", some 0⟩] : List Candidate).get ⟨i, hi⟩))) :=
  ⟨by decide,
    C1_tie_break_first_seen ⟨"a", "b", "", some 0⟩ ⟨"a", ["b"], "", some 0⟩
      ⟨"a", ["b"], "", some 0⟩ [] (by decide)⟩

/-- **C3 counterexample**: with two candidates of which one has an empty
artist list, the scorer evaluates `track.artists[0].name` and throws;
selection is not total on such candidate lists. -/
theorem C3_counterexample :
    findBestMatch [⟨"a", ["b"], "", some 0⟩, ⟨"a", [], "", some 0⟩]
      ⟨"a", "b", "", some 0⟩ = .error () := by
  decide

/-- Witness for the amended C3 on a one-candidate list. -/
theorem C3_total_amended_witness :
    (∀ c ∈ [(⟨"a", ["b"], "", some 0⟩ : Candidate)], c.artists ≠ []) ∧
    (∃ r, findBestMatch [(⟨"a", ["b"], "", some 0⟩ : Candidate)]
        ⟨"x", "y", "", some 0⟩ = .ok r ∧
      (r = none ↔ [(⟨"a", ["b"], "", some 0⟩ : Candidate)] = []) ∧
      (∀ c, r = some c → c ∈ [(⟨"a", ["b"], "", some 0⟩ : Candidate)])) :=
  ⟨by decide,
    C3_total_amended [⟨"a", ["b"], "", some 0⟩] ⟨"x", "y", "", some 0⟩ (by decide)⟩

/-- **C9**: resolving a playlist's members filters the library's track
list by id membership, so the result lists the matching tracks in the
order they appear in the library's Tracks dict — a sublist of the
whole-library conversion — not in the order of the playlist's item
list; and the result depends only on *which* ids occur among the items,
so an id occurring multiple times (or a permuted item list) contributes
each matching track at most once, unchanged. -/
theorem C9_member_resolution (tracks playlists : List JsObj) (pname : String)
    (playlist : JsObj) (itemObjs : List (List (String × PValue)))
    (hp : pname ≠ "")
    (hfind : playlists.find? (fun p => hasName p pname) = some playlist)
    (hitems : jsLookup playlist "Playlist Items" = some (.items itemObjs)) :
    getTracksForSpotifyX tracks playlists (some pname) =
      .ok (canonList (tracks.filter (fun track =>
        idMatches (cleanIds itemObjs) (jsLookup track "Track ID")))) ∧
    (canonList (tracks.filter (fun track =>
        idMatches (cleanIds itemObjs) (jsLookup track "Track ID")))).Sublist
      (canonList tracks) ∧
    (∀ itemObjs' : List (List (String × PValue)),
      (∀ v, v ∈ cleanIds itemObjs' ↔ v ∈ cleanIds itemObjs) →
      tracks.filter (fun track =>
        idMatches (cleanIds itemObjs') (jsLookup track "Track ID")) =
      tracks.filter (fun track =>
        idMatches (cleanIds itemObjs) (jsLookup track "Track ID"))) := by
  refine ⟨?_, ?_, ?_⟩
  · simp [getTracksForSpotifyX, hp, hfind, hitems, jsTruthy]
  · unfold canonList
    exact List.Sublist.filter _ (List.Sublist.map _ (List.filter_sublist _))
  · intro itemObjs' hiff
    apply List.filter_congr
    intro track _
    unfold idMatches
    cases jsLookup track "Track ID" with
    | none => rfl
    | some v =>
      rw [Bool.eq_iff_iff, List.any_eq_true, List.any_eq_true]
      constructor
      · rintro ⟨w, hw, hsvz⟩
        exact ⟨w, (hiff w).mp hw, hsvz⟩
      · rintro ⟨w, hw, hsvz⟩
        exact ⟨w, (hiff w).mpr hw, hsvz⟩

/-- Witness for C9: the playlist lists id 2 twice and then id 1, yet the
resolution returns the library-ordered conversion of the id-filtered
track list. -/
theorem C9_member_resolution_witness :
    (("P" : String) ≠ "" ∧
      ([[("Name", PValue.str "P"),
          ("Playlist Items", PValue.items
            [[("Track ID", PValue.int (some 2))],
             [("Track ID", PValue.int (some 2))],
             [("Track ID", PValue.int (some 1))]])]] : List JsObj).find?
        (fun p => hasName p "P") =
        some [("Name", PValue.str "P"),
          ("Playlist Items", PValue.items
            [[("Track ID", PValue.int (some 2))],
             [("Track ID", PValue.int (some 2))],
             [("Track ID", PValue.int (some 1))]])]) ∧
    getTracksForSpotifyX
        [[("Name", PValue.str "N1"), ("Artist", PValue.str "A1"),
          ("Track ID", PValue.int (some 1))],
         [("Name", PValue.str "N2"), ("Artist", PValue.str "A2"),
          ("Track ID", PValue.int (some 2))]]
        [[("Name", PValue.str "P"),
          ("Playlist Items", PValue.items
            [[("Track ID", PValue.int (some 2))],
             [("Track ID", PValue.int (some 2))],
             [("Track ID", PValue.int (some 1))]])]]
        (some "P") =
      .ok (canonList
        (([[("Name", PValue.str "N1"), ("Artist", PValue.str "A1"),
            ("Track ID", PValue.int (some 1))],
           [("Name", PValue.str "N2"), ("Artist", PValue.str "A2"),
            ("Track ID", PValue.int (some 2))]] : List JsObj).filter
          (fun track => idMatches
            (cleanIds [[("Track ID", PValue.int (some 2))],
              [("Track ID", PValue.int (some 2))],
              [("Track ID", PValue.int (some 1))]])
            (jsLookup track "Track ID")))) :=
  ⟨⟨by decide, rfl⟩,
    (C9_member_resolution
      [[("Name", PValue.str "N1"), ("Artist", PValue.str "A1"),
        ("Track ID", PValue.int (some 1))],
       [("Name", PValue.str "N2"), ("Artist", PValue.str "A2"),
        ("Track ID", PValue.int (some 2))]]
      [[("Name", PValue.str "P"),
        ("Playlist Items", PValue.items
          [[("Track ID", PValue.int (some 2))],
           [("Track ID", PValue.int (some 2))],
           [("Track ID", PValue.int (some 1))]])]]
      "P"
      [("Name", PValue.str "P"),
        ("Playlist Items", PValue.items
          [[("Track ID", PValue.int (some 2))],
           [("Track ID", PValue.int (some 2))],
           [("Track ID", PValue.int (some 1))]])]
      [[("Track ID", PValue.int (some 2))],
       [("Track ID", PValue.int (some 2))],
       [("Track ID", PValue.int (some 1))]]
      (by decide) rfl rfl).1⟩

/-- The step bound of `jsReplaceAllGo` is irrelevant once it dominates
the subject's length (each step consumes at least one character), so
`jsReplaceAll`'s choice of the subject's length as the bound loses
nothing. -/
theorem jsReplaceAllGo_fuel (pat repl : List Char) :
    ∀ (f1 : Nat), ∀ (f2 : Nat) (s : List Char), s.length ≤ f1 → s.length ≤ f2 →
      jsReplaceAllGo pat repl f1 s = jsReplaceAllGo pat repl f2 s := by
  intro f1
  induction f1 with
  | zero =>
    intro f2 s h1 _
    have hs : s = [] := List.eq_nil_of_length_eq_zero (Nat.le_zero.mp h1)
    subst hs
    cases f2 <;> rfl
  | succ f ih =>
    intro f2 s h1 h2
    cases s with
    | nil => cases f2 <;> rfl
    | cons c rest =>
      cases f2 with
      | zero =>
        exact absurd h2 (by simp)
      | succ g =>
        simp only [jsReplaceAllGo]
        by_cases h : pat ≠ [] ∧ pat = (c :: rest).take pat.length
        · have hplen : 1 ≤ pat.length := by
            cases hp : pat with
            | nil => exact absurd hp h.1
            | cons a l => simp
          have hdlen : ((c :: rest).drop pat.length).length ≤ f := by
            simp only [List.length_drop, List.length_cons]
            simp only [List.length_cons] at h1
            omega
          have hdlen2 : ((c :: rest).drop pat.length).length ≤ g := by
            simp only [List.length_drop, List.length_cons]
            simp only [List.length_cons] at h2
            omega
          simp only [if_pos h]
          rw [ih g _ hdlen hdlen2]
        · have hrlen : rest.length ≤ f := by
            simp only [List.length_cons] at h1
            omega
          have hrlen2 : rest.length ≤ g := by
            simp only [List.length_cons] at h2
            omega
          simp only [if_neg h]
          rw [ih g rest hrlen hrlen2]
